import Mathlib

/-
Verification development for scripts/kafkacheck.py, a cost-report generator:
file discovery by case-insensitive substring match, two-layer JSON envelope
extraction, aggregation (grand total, per-cost-unit breakdown, duplicate-id
check) and a sorted report.

Modelling conventions:
- json.load yields Python ints for integer literals and Python floats
  otherwise; the two constructors intNum and floatNum keep the distinction,
  because converting a large int to float raises OverflowError while float
  arithmetic never raises.  Finite float payloads are carried as exact
  rationals: the claims about sums only concern order-insensitive exact
  accumulation, and bit-level double rounding of sums is not modelled.
  Non-finite float payloads (json.loads also accepts Infinity and NaN) are
  not distinguished; they raise no exception on any modelled path.
- Python dicts obtained from json.load are modelled as association lists with
  unique keys; lookupField returns the first (hence only) binding.
- A parse oracle of type String -> Option Json stands for json.loads: some v
  on success, none for a raised JSONDecodeError.
- Reading a file is modelled by Option String content: none stands for an
  I/O error raised by open/read.
- float(string) on unit labels is likewise an oracle String -> Option
  PyFloatVal (none for ValueError); the ordering theorems are parametric in
  it, and the concrete parser pyFloat? below realises it on the labels of
  the examples.
-/

/-- A parsed JSON value, as produced by json.load / json.loads.  An integer
literal becomes an arbitrary-precision Python int (intNum); any other
numeric literal becomes a Python float, carried as its exact value
(floatNum). -/
inductive Json where
  | null : Json
  | bool (b : Bool) : Json
  | intNum (n : Int) : Json
  | floatNum (q : Rat) : Json
  | str (s : String) : Json
  | arr (elems : List Json) : Json
  | obj (fields : List (String × Json)) : Json

/-- Python dict lookup d.get(k): first binding of k in the field list
(json.load collapses duplicate keys, so the list is assumed key-unique). -/
def lookupField : List (String × Json) → String → Option Json
  | [], _ => none
  | p :: ps, k => if p.1 = k then some p.2 else lookupField ps k

/-- process_file (kafkacheck.py lines 22-49).  Reads and parses one file and
returns the Python value bound to rows. Every exception inside the function
body is caught (the inner handler catches the inner JSONDecodeError; the
outer handler catches everything else, including the TypeError and
AttributeError raised when the parsed document is not a dict, or when the
inner payload is not a dict) and turned into an empty list. -/
def process_file (parse : String → Option Json) (content : Option String) : Json :=
  match content with
  | none => Json.arr []
  | some text =>
    match parse text with
    | none => Json.arr []
    | some (Json.obj fields) =>
      match lookupField fields "Value" with
      | some (Json.str s) =>
        (match parse s with
         | none => Json.arr []
         | some (Json.obj inner) => (lookupField inner "data").getD (Json.arr [])
         | some _ => Json.arr [])
      | _ => (lookupField fields "data").getD (Json.arr [])
    | some _ => Json.arr []

/-- One entry of directory.iterdir(): its filename, whether it is a regular
file, and its readable content (none models a read error). -/
structure DirEntry where
  name : String
  isFile : Bool
  content : Option String
deriving DecidableEq

/-- The state of the directory named by argv[1]. -/
structure FileSys where
  isDir : Bool
  entries : List DirEntry

/-- Code-point lexicographic comparison of strings as lists of characters,
the order Python uses to compare str values (line 75 sorts by f.name). -/
def strLe : List Char → List Char → Bool
  | [], _ => true
  | _ :: _, [] => false
  | c :: cs, d :: ds =>
    if c.toNat < d.toNat then true
    else if d.toNat < c.toNat then false
    else strLe cs ds

/-- Is pat a prefix of s (character lists)? -/
def isPrefixB : List Char → List Char → Bool
  | [], _ => true
  | _ :: _, [] => false
  | c :: cs, d :: ds => c == d && isPrefixB cs ds

/-- Substring containment pat in s, Python's `in` on str. -/
def containsSub (pat : List Char) : List Char → Bool
  | [] => isPrefixB pat []
  | c :: rest => isPrefixB pat (c :: rest) || containsSub pat rest

/-- Line 67: file_pattern.lower() in item.name.lower().  Char.toLower models
str.lower (ASCII letters; the filenames of interest are ASCII). -/
def nameMatches (pattern name : String) : Bool :=
  containsSub (pattern.data.map Char.toLower) (name.data.map Char.toLower)

/-- Lines 63-68: the matching files in directory iteration order. -/
def matching_files (pattern : String) (entries : List DirEntry) : List DirEntry :=
  entries.filter (fun e => e.isFile && nameMatches pattern e.name)

/-- Order used by line 75: all_files.sort(key=lambda f: f.name). -/
def nameLe (a b : DirEntry) : Prop := strLe a.name.data b.name.data = true

instance : DecidableRel nameLe := fun a b =>
  instDecidableEqBool (strLe a.name.data b.name.data) true

/-- Lines 63-77: discovery result, the matching files sorted by name.
list.sort is stable; insertionSort is the stable sort in Mathlib. -/
def sorted_files (pattern : String) (entries : List DirEntry) : List DirEntry :=
  List.insertionSort nameLe (matching_files pattern entries)

/-- Python truthiness of a JSON-derived value (bool(v)). -/
def jsonTruthy : Json → Bool
  | Json.null => false
  | Json.bool b => b
  | Json.intNum n => decide (n ≠ 0)
  | Json.floatNum q => decide (q ≠ 0)
  | Json.str s => !s.isEmpty
  | Json.arr xs => !xs.isEmpty
  | Json.obj fields => !fields.isEmpty

/-- Hashability: lists and dicts raise TypeError when used in a set or as a
dict key; every other JSON value is hashable. -/
def jsonHashable : Json → Bool
  | Json.arr _ => false
  | Json.obj _ => false
  | _ => true

/-- The smallest magnitude at which CPython's round-half-even conversion of
an int (or a parsed numeral) to double overflows: the tie midpoint between
the largest double 2^1024 - 2^971 and 2^1024 rounds up to 2^1024.  Written
as a literal so that proofs evaluate it directly; floatMaxBound_eq below
checks it against the formula. -/
def floatMaxBound : Nat := 179769313486231580793728971405303415079934132710037826936173778980444968292764750946649017977587207096330286416692887910946555547851940402630657488671505820681908902000708383676273854845817711531764475730270069855571366959622842914819860834936475292719074168444365510704342711559699508093042880177904174497792

set_option maxRecDepth 8000 in
theorem floatMaxBound_eq : floatMaxBound = 2 ^ 1024 - 2 ^ 970 := by decide

/-- Does float(n) on a Python int succeed?  Beyond the bound it raises
OverflowError (int too large to convert to float). -/
def intFloatable (n : Int) : Bool := decide (n.natAbs < floatMaxBound)

/-- Values v for which float + v cannot raise (lines 116 and 142): floats
and bools always work; an int works exactly when it converts to float,
else the addition raises an uncaught OverflowError. -/
def jsonNumeric : Json → Bool
  | Json.intNum n => intFloatable n
  | Json.floatNum _ => true
  | Json.bool _ => true
  | _ => false

/-- Does sort_key (line 149) return instead of raising on this unit key?
float(v) on a str either parses, overflows to inf, or raises ValueError
(caught); on None it raises TypeError (caught); on a float or bool it
returns; on an int beyond the conversion bound it raises OverflowError,
which the except clause does not catch, so sorted() at line 153 crashes. -/
def unitKeySafe : Json → Bool
  | Json.intNum n => intFloatable n
  | _ => true

/-- row.get(k) on a parsed row: defined only when the row is a dict;
a non-dict row raises AttributeError (tracked by the caller). -/
def rowField (r : Json) (k : String) : Option Json :=
  match r with
  | Json.obj fields => lookupField fields k
  | _ => none

def jsonIsObj : Json → Bool
  | Json.obj _ => true
  | _ => false

/-- Line 84, all_rows.extend(rows): iterables extend element-wise (a str
yields its characters, a dict its keys); numbers, bools and None raise
TypeError, modelled as none. -/
def rowsOf : Json → Option (List Json)
  | Json.arr xs => some xs
  | Json.str s => some (s.data.map (fun c => Json.str (String.mk [c])))
  | Json.obj fields => some (fields.map (fun p => Json.str p.1))
  | Json.intNum _ => none
  | Json.floatNum _ => none
  | Json.bool _ => none
  | Json.null => none

/-- Lines 80-85: process each file in order and concatenate the rows;
none records an uncaught TypeError from extend. -/
def extract_all (parse : String → Option Json) : List DirEntry → Option (List Json)
  | [] => some []
  | e :: es =>
    match rowsOf (process_file parse e.content) with
    | none => none
    | some rs =>
      match extract_all parse es with
      | none => none
      | some rest => some (rs ++ rest)

/-- The elements of a JSON array, empty for anything else. -/
def arr_elems : Json → List Json
  | Json.arr xs => xs
  | _ => []

/-- The concatenated rows of a run whose files all yield JSON arrays. -/
def extracted_rows (parse : String → Option Json) (files : List DirEntry) : List Json :=
  (files.map (fun e => arr_elems (process_file parse e.content))).flatten

/-- Line 93 applied to raw rows: ids that are present and truthy. -/
def allIdsJson (rows : List Json) : List Json :=
  rows.filterMap (fun r =>
    match rowField r "id" with
    | some v => if jsonTruthy v then some v else none
    | none => none)

/-- Do lines 92-160 run without an uncaught exception on these rows?
Line 93 needs every row to be a dict; line 95 puts the truthy ids in a set
(unhashable ids raise); lines 116 and 142 add each cost to a float
(OverflowError on a huge int cost); line 142 uses the cost unit as a dict
key; line 153 applies sort_key to each unit key, where float() on a huge
int unit raises OverflowError past the except clause. -/
def aggregation_ok (rows : List Json) : Bool :=
  rows.all jsonIsObj
  && (allIdsJson rows).all jsonHashable
  && rows.all (fun r =>
       match rowField r "cost" with
       | some v => jsonNumeric v
       | none => true)
  && rows.all (fun r =>
       match rowField r "cost_unit" with
       | some v => jsonHashable v
       | none => true)
  && rows.all (fun r =>
       match rowField r "cost_unit" with
       | some v => unitKeySafe v
       | none => true)

/-- The fatal sys.exit calls of main. -/
inductive Fatal where
  | missingArgs : Fatal
  | notADirectory : Fatal
  | noFilesFound : Fatal
  | noCostItems : Fatal
deriving DecidableEq

/-- How one run of main ends: a fatal sys.exit with a message (non-zero
status), an uncaught exception (also a non-zero status, but not one of the
deliberate exits), or normal completion printing the report built from the
collected rows (exit 0). -/
inductive Outcome where
  | fatal (f : Fatal) : Outcome
  | crash : Outcome
  | ok (rows : List Json) : Outcome

/-- main (kafkacheck.py lines 51-160) up to the data it reports on.  Locale
selection (lines 118-129) always degrades to some usable locale and is not
modelled; printing itself cannot fail. -/
def runMain (parse : String → Option Json) (argv : List String) (fsys : FileSys) : Outcome :=
  if argv.length < 3 then Outcome.fatal Fatal.missingArgs
  else if fsys.isDir = false then Outcome.fatal Fatal.notADirectory
  else if (matching_files (argv.getD 2 "") fsys.entries).isEmpty then
    Outcome.fatal Fatal.noFilesFound
  else
    match extract_all parse
        (List.insertionSort nameLe (matching_files (argv.getD 2 "") fsys.entries)) with
    | none => Outcome.crash
    | some all_rows =>
      if all_rows.isEmpty then Outcome.fatal Fatal.noCostItems
      else if aggregation_ok all_rows then Outcome.ok all_rows else Outcome.crash

/-- A cost record as documented by the data model: a mapping with optional
id, cost and cost_unit fields (spec section 3); rows of well-shaped inputs. -/
structure CostRecord where
  id : Option String
  cost : Option Rat
  cost_unit : Option String
deriving DecidableEq

/-- row.get("cost", 0.0) on lines 116 and 141. -/
def cost_of (r : CostRecord) : Rat := r.cost.getD 0

/-- row.get("cost_unit", "UNKNOWN") on line 140. -/
def unit_of (r : CostRecord) : String := r.cost_unit.getD "UNKNOWN"

/-- The truthiness filter of line 93 on an optional string id: a present
empty string is falsy and dropped, exactly like an absent id. -/
def idTruthy : Option String → Option String
  | some s => if s = "" then none else some s
  | none => none

/-- Line 93: all_ids, the present-and-truthy ids in row order. -/
def all_ids (rows : List CostRecord) : List String :=
  rows.filterMap (fun r => idTruthy r.id)

/-- Insertion into dict/set key order: append the key when it is new. -/
def add_seen (seen : List String) (x : String) : List String :=
  if x ∈ seen then seen else seen ++ [x]

/-- Distinct elements in first-seen order, the iteration order of a Python
set/Counter built from the list (line 95 set, line 97 Counter). -/
def firstSeen (xs : List String) : List String := xs.foldl add_seen []

/-- Line 95: len(all_ids) != len(set(all_ids)). -/
def has_duplicate_ids (rows : List CostRecord) : Bool :=
  (all_ids rows).length != (firstSeen (all_ids rows)).length

/-- Lines 97-98: Counter(all_ids) in first-seen order, keeping the entries
with count greater than one. -/
def duplicates (rows : List CostRecord) : List (String × Nat) :=
  ((firstSeen (all_ids rows)).map (fun x => (x, (all_ids rows).count x))).filter
    (fun p => 1 < p.2)

/-- A line of the uniqueness section of the report. -/
inductive DupLine where
  | detail (dupId : String) (count : Nat) : DupLine
  | more (remaining : Nat) : DupLine
  | success (total : Nat) : DupLine
deriving DecidableEq

/-- Lines 103-107: the enumerate loop over duplicates.items(); at index 5 it
prints the and-N-more line and breaks. -/
def dup_detail_lines (total : Nat) : Nat → List (String × Nat) → List DupLine
  | _, [] => []
  | i, p :: ps =>
    if 5 ≤ i then [DupLine.more (total - 5)]
    else DupLine.detail p.1 p.2 :: dup_detail_lines total (i + 1) ps

/-- Lines 95-110: the uniqueness check section. -/
def id_check_report (rows : List CostRecord) : List DupLine :=
  if has_duplicate_ids rows then
    dup_detail_lines (duplicates rows).length 0 (duplicates rows)
  else [DupLine.success rows.length]

/-- Lines 113-116: grand_total_cost accumulated over all rows. -/
def grand_total_cost (rows : List CostRecord) : Rat :=
  rows.foldl (fun acc r => acc + cost_of r) 0

/-- One step of lines 142-143 on the paired defaultdicts: add the cost and
bump the count of the row's unit, appending a fresh bucket in insertion
order when the unit is new. -/
def bump_unit : List (String × Rat × Nat) → String → Rat → List (String × Rat × Nat)
  | [], u, c => [(u, c, 1)]
  | e :: es, u, c =>
    if e.1 = u then (e.1, e.2.1 + c, e.2.2 + 1) :: es
    else e :: bump_unit es u c

/-- Lines 137-143: per-unit (summed cost, item count) in insertion order. -/
def cost_breakdown (rows : List CostRecord) : List (String × Rat × Nat) :=
  rows.foldl (fun acc r => bump_unit acc (unit_of r) (cost_of r)) []

/-- An exact finite float value as an integer fraction with a positive
denominator; comparisons cross-multiply, so no normalisation is needed. -/
structure PyNum where
  num : Int
  den : Nat
  den_pos : 0 < den

/-- A Python float as float(string) can produce it: a finite value, one of
the two infinities, or NaN. -/
inductive PyFloatVal where
  | fin (v : PyNum) : PyFloatVal
  | pinf : PyFloatVal
  | ninf : PyFloatVal
  | nan : PyFloatVal

def isPinfKey : PyFloatVal → Bool
  | PyFloatVal.pinf => true
  | _ => false

def isNanKey : PyFloatVal → Bool
  | PyFloatVal.nan => true
  | _ => false

/-- The characters float() accepts as surrounding whitespace, measured on
CPython 3.11 (the transform maps each of them to an ASCII space). -/
def isSpaceChar (c : Char) : Bool :=
  c.toNat == 0x9 || c.toNat == 0xA || c.toNat == 0xB || c.toNat == 0xC ||
  c.toNat == 0xD || c.toNat == 0x20 || c.toNat == 0x85 || c.toNat == 0xA0 ||
  c.toNat == 0x1680 || (decide (0x2000 ≤ c.toNat) && decide (c.toNat ≤ 0x200A)) ||
  c.toNat == 0x2028 || c.toNat == 0x2029 || c.toNat == 0x202F ||
  c.toNat == 0x205F || c.toNat == 0x3000

/-- Strip leading and trailing whitespace before parsing, as float() does. -/
def trimChars (cs : List Char) : List Char :=
  ((cs.dropWhile isSpaceChar).reverse.dropWhile isSpaceChar).reverse

/-- First code point of each contiguous run of Unicode decimal digits
(category Nd, digits 0 to 9), Unicode 14.0 tables as shipped with
CPython 3.11; float() converts every such digit to its decimal value. -/
def ndZeros : List Nat :=
  [0x30, 0x660, 0x6F0, 0x7C0, 0x966, 0x9E6, 0xA66, 0xAE6, 0xB66, 0xBE6,
   0xC66, 0xCE6, 0xD66, 0xDE6, 0xE50, 0xED0, 0xF20, 0x1040, 0x1090, 0x17E0,
   0x1810, 0x1946, 0x19D0, 0x1A80, 0x1A90, 0x1B50, 0x1BB0, 0x1C40, 0x1C50,
   0xA620, 0xA8D0, 0xA900, 0xA9D0, 0xA9F0, 0xAA50, 0xABF0, 0xFF10, 0x104A0,
   0x10D30, 0x11066, 0x110F0, 0x11136, 0x111D0, 0x112F0, 0x11450, 0x114D0,
   0x11650, 0x116C0, 0x11730, 0x118E0, 0x11950, 0x11C50, 0x11D50, 0x11DA0,
   0x16A60, 0x16AC0, 0x16B50, 0x1D7CE, 0x1D7D8, 0x1D7E2, 0x1D7EC, 0x1D7F6,
   0x1E140, 0x1E2F0, 0x1E950, 0x1FBF0]

/-- The decimal value of a Unicode decimal digit, none otherwise. -/
def digitVal? (c : Char) : Option Nat :=
  ndZeros.findSome? fun z =>
    if z ≤ c.toNat ∧ c.toNat ≤ z + 9 then some (c.toNat - z) else none

/-- Read a leading digit run with single underscores allowed between two
digits (the numeral grammar float() accepts): value, digit count, rest.
A stray underscore is left in the rest, making the whole parse fail.
The fuel argument, always at least the list length, only makes the
recursion structural: every step consumes one or two characters. -/
def readDigitsAux : Nat → List Char → Nat × Nat × List Char
  | 0, cs => (0, 0, cs)
  | _ + 1, [] => (0, 0, [])
  | fuel + 1, c :: cs =>
    match digitVal? c with
    | none => (0, 0, c :: cs)
    | some d =>
      match cs with
      | '_' :: c2 :: rest =>
        if (digitVal? c2).isSome then
          let r := readDigitsAux fuel (c2 :: rest)
          (d * 10 ^ r.2.1 + r.1, r.2.1 + 1, r.2.2)
        else (d, 1, cs)
      | _ =>
        let r := readDigitsAux fuel cs
        (d * 10 ^ r.2.1 + r.1, r.2.1 + 1, r.2.2)

def readDigits (cs : List Char) : Nat × Nat × List Char :=
  readDigitsAux cs.length cs

/-- Assemble sign * (ip.fp) * 10^e as an exact fraction. -/
def mkPyNum (sgn : Int) (ip fp nf : Nat) (e : Int) : PyNum :=
  let base : Int := sgn * ((ip * 10 ^ nf + fp : Nat) : Int)
  if 0 ≤ e then ⟨base * (10 : Int) ^ e.toNat, 10 ^ nf, Nat.pos_pow_of_pos nf (by norm_num)⟩
  else ⟨base, 10 ^ (nf + e.natAbs), Nat.pos_pow_of_pos _ (by norm_num)⟩

/-- A parsed numeral whose magnitude reaches the conversion bound becomes
the infinity of its sign, as strtod overflow does in float(); smaller
values stay finite. -/
def finOrInf (p : PyNum) : PyFloatVal :=
  if p.num.natAbs < floatMaxBound * p.den then PyFloatVal.fin p
  else if p.num < 0 then PyFloatVal.ninf else PyFloatVal.pinf

/-- Exponent tail of a numeral: required digits, then end of input. -/
def pyExpDigits (sgn : Int) (ip fp nf : Nat) (esgn : Int) (r : List Char) :
    Option PyFloatVal :=
  let er := readDigits r
  if er.2.1 = 0 ∨ ¬ er.2.2.isEmpty then none
  else some (finOrInf (mkPyNum sgn ip fp nf (esgn * (er.1 : Int))))

/-- Optional sign of the exponent. -/
def pyExp (sgn : Int) (ip fp nf : Nat) (r : List Char) : Option PyFloatVal :=
  match r with
  | '+' :: r2 => pyExpDigits sgn ip fp nf 1 r2
  | '-' :: r2 => pyExpDigits sgn ip fp nf (-1) r2
  | r2 => pyExpDigits sgn ip fp nf 1 r2

/-- Python float(string): optional whitespace and sign, then inf, infinity
or nan (case-insensitive), or a decimal numeral (Unicode digits, optional
underscores, fraction and exponent); none models a raised ValueError.
Finite values are exact rationals: CPython additionally rounds each to the
nearest double, which can merge near-equal keys into ties; the sorting
theorems are parametric in the oracle, and this concrete parser agrees
with CPython on the example labels used below. -/
def pyFloat? (s : String) : Option PyFloatVal :=
  let cs0 := trimChars s.data
  let sr : Int × List Char :=
    match cs0 with
    | '+' :: r => (1, r)
    | '-' :: r => (-1, r)
    | r => (1, r)
  let low := sr.2.map Char.toLower
  if low = ['i', 'n', 'f'] ∨ low = ['i', 'n', 'f', 'i', 'n', 'i', 't', 'y'] then
    some (if sr.1 < 0 then PyFloatVal.ninf else PyFloatVal.pinf)
  else if low = ['n', 'a', 'n'] then some PyFloatVal.nan
  else
    let ipr := readDigits sr.2
    let fpr : Nat × Nat × List Char :=
      match ipr.2.2 with
      | '.' :: r => readDigits r
      | r => (0, 0, r)
    if ipr.2.1 + fpr.2.1 = 0 then none
    else
      match fpr.2.2 with
      | [] => some (finOrInf (mkPyNum sr.1 ipr.1 fpr.1 fpr.2.1 0))
      | 'e' :: r => pyExp sr.1 ipr.1 fpr.1 fpr.2.1 r
      | 'E' :: r => pyExp sr.1 ipr.1 fpr.1 fpr.2.1 r
      | _ => none

/-- Lines 147-151: sort_key under a float(string) oracle pfloat; a raised
ValueError is caught and replaced by float(inf). -/
def sort_key (pfloat : String → Option PyFloatVal) (u : String) : PyFloatVal :=
  (pfloat u).getD PyFloatVal.pinf

/-- Rank of a key class: negative infinity, finite, then positive infinity.
NaN keys get the top rank as a modelling choice only: all comparisons with
a NaN are false in Python, sorted() is then not governed by any order, and
its output depends on the merge pattern of Timsort; the ordering theorems
therefore assume no NaN key. -/
def keyRank : PyFloatVal → Nat
  | PyFloatVal.ninf => 0
  | PyFloatVal.fin _ => 1
  | PyFloatVal.pinf => 2
  | PyFloatVal.nan => 2

/-- Comparison of sort keys: finite values by cross-multiplication, the
classes by rank. -/
def keyLeB : PyFloatVal → PyFloatVal → Bool
  | PyFloatVal.fin x, PyFloatVal.fin y =>
    decide (x.num * (y.den : Int) ≤ y.num * (x.den : Int))
  | a, b => decide (keyRank a ≤ keyRank b)

/-- The total preorder sorted() uses on unit labels via sort_key. -/
def unitLe (pfloat : String → Option PyFloatVal) (a b : String) : Prop :=
  keyLeB (sort_key pfloat a) (sort_key pfloat b) = true

instance (pfloat : String → Option PyFloatVal) : DecidableRel (unitLe pfloat) := fun a b =>
  instDecidableEqBool (keyLeB (sort_key pfloat a) (sort_key pfloat b)) true

/-- Line 153: sorted(per_cost_unit.keys(), key=sort_key), a stable sort of
the insertion-ordered keys. -/
def sorted_units (pfloat : String → Option PyFloatVal) (units : List String) : List String :=
  List.insertionSort (unitLe pfloat) units

/-- Membership in one insertion step. -/
theorem mem_add_seen {seen : List String} {x a : String} :
    a ∈ add_seen seen x ↔ a ∈ seen ∨ a = x := by
  unfold add_seen
  split
  · rename_i hx
    constructor
    · exact Or.inl
    · rintro (h | rfl)
      · exact h
      · exact hx
  · simp [List.mem_append]

/-- Insertion keeps key lists duplicate-free. -/
theorem nodup_add_seen {seen : List String} {x : String} (h : seen.Nodup) :
    (add_seen seen x).Nodup := by
  unfold add_seen
  split
  · exact h
  · rename_i hx
    simp [List.nodup_append, h, hx]

theorem mem_foldl_add_seen :
    ∀ (xs : List String) (seen : List String) (a : String),
      a ∈ xs.foldl add_seen seen ↔ a ∈ seen ∨ a ∈ xs := by
  intro xs
  induction xs with
  | nil => simp
  | cons x rest ih =>
    intro seen a
    rw [List.foldl_cons, ih, mem_add_seen]
    simp [or_assoc, or_comm, or_left_comm]

theorem nodup_foldl_add_seen :
    ∀ (xs : List String) (seen : List String), seen.Nodup → (xs.foldl add_seen seen).Nodup := by
  intro xs
  induction xs with
  | nil => exact fun _ h => h
  | cons x rest ih => exact fun seen h => ih _ (nodup_add_seen h)

theorem mem_firstSeen {xs : List String} {a : String} : a ∈ firstSeen xs ↔ a ∈ xs := by
  unfold firstSeen
  rw [mem_foldl_add_seen]
  simp

theorem firstSeen_nodup (xs : List String) : (firstSeen xs).Nodup :=
  nodup_foldl_add_seen xs [] List.nodup_nil

/-- The first-seen list has one entry per distinct value. -/
theorem length_firstSeen (xs : List String) : (firstSeen xs).length = xs.toFinset.card := by
  have h1 : (firstSeen xs).toFinset = xs.toFinset := by
    apply Finset.ext
    intro a
    simp [List.mem_toFinset, mem_firstSeen]
  rw [← h1, List.toFinset_card_of_nodup (firstSeen_nodup xs)]

theorem toFinset_card_eq_length_iff (xs : List String) :
    xs.toFinset.card = xs.length ↔ xs.Nodup := by
  simpa using Multiset.toFinset_card_eq_card_iff_nodup (m := (xs : Multiset String))

/-- The length comparison of line 95 detects exactly the existence of a
duplicate among the collected ids. -/
theorem has_duplicate_ids_iff (rows : List CostRecord) :
    has_duplicate_ids rows = true ↔ ¬ (all_ids rows).Nodup := by
  unfold has_duplicate_ids
  rw [bne_iff_ne, length_firstSeen, ← toFinset_card_eq_length_iff (all_ids rows)]
  exact ne_comm

/-- Folding cost accumulation from any start point. -/
theorem foldl_cost (l : List CostRecord) :
    ∀ a : Rat, l.foldl (fun acc r => acc + cost_of r) a = a + (l.map cost_of).sum := by
  induction l with
  | nil => simp
  | cons r rest ih =>
    intro a
    rw [List.foldl_cons, ih, List.map_cons, List.sum_cons]
    ring

/-- The grand total is the sum of the cost field over all rows. -/
theorem grand_total_cost_eq_sum (rows : List CostRecord) :
    grand_total_cost rows = (rows.map cost_of).sum := by
  unfold grand_total_cost
  rw [foldl_cost]
  ring

theorem keys_bump (u : String) (c : Rat) :
    ∀ acc : List (String × Rat × Nat),
      (bump_unit acc u c).map (fun e => e.1) = add_seen (acc.map (fun e => e.1)) u := by
  intro acc
  induction acc with
  | nil => simp [bump_unit, add_seen]
  | cons e es ih =>
    by_cases h : e.1 = u
    · simp [bump_unit, h, add_seen]
    · have h2 : u ∈ (e.1 :: es.map (fun e => e.1)) ↔ u ∈ es.map (fun e => e.1) := by
        simp [Ne.symm h]
      simp only [bump_unit, if_neg h, List.map_cons, ih, add_seen, h2]
      split <;> simp

theorem sum_costs_bump (u : String) (c : Rat) :
    ∀ acc : List (String × Rat × Nat),
      ((bump_unit acc u c).map (fun e => e.2.1)).sum = ((acc.map (fun e => e.2.1)).sum) + c := by
  intro acc
  induction acc with
  | nil => simp [bump_unit]
  | cons e es ih =>
    by_cases h : e.1 = u
    · simp only [bump_unit, if_pos h, List.map_cons, List.sum_cons]
      ring
    · simp only [bump_unit, if_neg h, List.map_cons, List.sum_cons, ih]
      ring

theorem sum_counts_bump (u : String) (c : Rat) :
    ∀ acc : List (String × Rat × Nat),
      ((bump_unit acc u c).map (fun e => e.2.2)).sum = ((acc.map (fun e => e.2.2)).sum) + 1 := by
  intro acc
  induction acc with
  | nil => simp [bump_unit]
  | cons e es ih =>
    by_cases h : e.1 = u
    · simp only [bump_unit, if_pos h, List.map_cons, List.sum_cons]
      omega
    · simp only [bump_unit, if_neg h, List.map_cons, List.sum_cons, ih]
      omega

theorem breakdown_fold_costs (rows : List CostRecord) :
    ∀ acc : List (String × Rat × Nat),
      (((rows.foldl (fun acc r => bump_unit acc (unit_of r) (cost_of r)) acc).map
        (fun e => e.2.1)).sum)
      = ((acc.map (fun e => e.2.1)).sum) + (rows.map cost_of).sum := by
  induction rows with
  | nil => simp
  | cons r rest ih =>
    intro acc
    rw [List.foldl_cons, ih, sum_costs_bump, List.map_cons, List.sum_cons]
    ring

theorem breakdown_fold_counts (rows : List CostRecord) :
    ∀ acc : List (String × Rat × Nat),
      (((rows.foldl (fun acc r => bump_unit acc (unit_of r) (cost_of r)) acc).map
        (fun e => e.2.2)).sum)
      = ((acc.map (fun e => e.2.2)).sum) + rows.length := by
  induction rows with
  | nil => simp
  | cons r rest ih =>
    intro acc
    rw [List.foldl_cons, ih, sum_counts_bump, List.length_cons]
    omega

theorem breakdown_fold_keys (rows : List CostRecord) :
    ∀ acc : List (String × Rat × Nat),
      ((rows.foldl (fun acc r => bump_unit acc (unit_of r) (cost_of r)) acc).map
        (fun e => e.1))
      = (rows.map unit_of).foldl add_seen (acc.map (fun e => e.1)) := by
  induction rows with
  | nil => simp
  | cons r rest ih =>
    intro acc
    rw [List.foldl_cons, ih, keys_bump, List.map_cons, List.foldl_cons]

/-- The enumerate-with-break loop of lines 103-107 prints the first five
groups and, when more remain, one summary line. -/
theorem dup_detail_lines_eq (total : Nat) :
    ∀ (ps : List (String × Nat)) (i : Nat), i ≤ 5 →
      dup_detail_lines total i ps
        = (ps.take (5 - i)).map (fun p => DupLine.detail p.1 p.2)
          ++ (if 5 - i < ps.length then [DupLine.more (total - 5)] else []) := by
  intro ps
  induction ps with
  | nil => simp [dup_detail_lines]
  | cons p rest ih =>
    intro i hi
    by_cases h5 : 5 ≤ i
    · have : i = 5 := le_antisymm hi h5
      subst this
      simp [dup_detail_lines]
    · have hlt : i < 5 := lt_of_not_ge h5
      have hstep : 5 - i = (5 - (i + 1)) + 1 := by omega
      rw [dup_detail_lines, if_neg (by omega), ih (i + 1) (by omega), hstep]
      simp only [List.take_succ_cons, List.map_cons, List.cons_append, List.length_cons]
      have hcond : ((5 - (i + 1)) + 1 < rest.length + 1) ↔ (5 - (i + 1) < rest.length) := by
        omega
      rw [if_congr hcond rfl rfl]

theorem strLe_total : ∀ x y : List Char, strLe x y = true ∨ strLe y x = true := by
  intro x
  induction x with
  | nil => intro y; left; rfl
  | cons c cs ih =>
    intro y
    cases y with
    | nil => right; rfl
    | cons d ds =>
      rcases Nat.lt_trichotomy c.toNat d.toNat with h | h | h
      · left; simp [strLe, h]
      · have h2 : ¬ c.toNat < d.toNat := by omega
        have h3 : ¬ d.toNat < c.toNat := by omega
        rcases ih ds with h4 | h4
        · left; simp [strLe, h2, h3, h4]
        · right; simp [strLe, h2, h3, h4]
      · right; simp [strLe, h]

theorem strLe_trans : ∀ x y z : List Char,
    strLe x y = true → strLe y z = true → strLe x z = true := by
  intro x
  induction x with
  | nil => intro y z _ _; rfl
  | cons c cs ih =>
    intro y z hxy hyz
    cases y with
    | nil => simp [strLe] at hxy
    | cons d ds =>
      cases z with
      | nil => simp [strLe] at hyz
      | cons e es =>
        simp only [strLe] at hxy hyz ⊢
        rcases Nat.lt_trichotomy c.toNat e.toNat with h | h | h
        · simp [h]
        · have hce : ¬ c.toNat < e.toNat := by omega
          have hec : ¬ e.toNat < c.toNat := by omega
          simp only [if_neg hce, if_neg hec]
          by_cases hcd : c.toNat < d.toNat
          · by_cases hde : d.toNat < e.toNat
            · omega
            · have hed : e.toNat < d.toNat := by omega
              simp [if_neg (by omega : ¬ d.toNat < e.toNat), if_pos hed] at hyz
          · by_cases hdc : d.toNat < c.toNat
            · simp [if_neg hcd, if_pos hdc] at hxy
            · have hdc2 : d.toNat = c.toNat := by omega
              by_cases hde : d.toNat < e.toNat
              · omega
              · by_cases hed : e.toNat < d.toNat
                · omega
                · simp only [if_neg hcd, if_neg hdc] at hxy
                  simp only [if_neg hde, if_neg hed] at hyz
                  exact ih ds es hxy hyz
        · have hcd : ¬ c.toNat < d.toNat := by
            by_contra hc
            by_cases hde : d.toNat < e.toNat
            · omega
            · by_cases hed : e.toNat < d.toNat
              · simp [if_neg hde, if_pos hed] at hyz
              · omega
          have hdc : ¬ d.toNat < c.toNat := by
            by_contra hc
            simp [if_neg hcd, if_pos hc] at hxy
          have hde : ¬ d.toNat < e.toNat := by omega
          have hed : e.toNat < d.toNat := by omega
          simp [if_neg hde, if_pos hed] at hyz

instance : IsTotal DirEntry nameLe :=
  ⟨fun a b => strLe_total a.name.data b.name.data⟩

instance : IsTrans DirEntry nameLe :=
  ⟨fun a b c => strLe_trans a.name.data b.name.data c.name.data⟩

theorem pynum_le_trans (a b c : PyNum)
    (hxy : a.num * (b.den : Int) ≤ b.num * (a.den : Int))
    (hyz : b.num * (c.den : Int) ≤ c.num * (b.den : Int)) :
    a.num * (c.den : Int) ≤ c.num * (a.den : Int) := by
  have hb : (0 : Int) < (b.den : Int) := by exact_mod_cast b.den_pos
  have hc : (0 : Int) ≤ (c.den : Int) := Int.natCast_nonneg _
  have ha : (0 : Int) ≤ (a.den : Int) := Int.natCast_nonneg _
  have h1 : a.num * (b.den : Int) * (c.den : Int) ≤ b.num * (a.den : Int) * (c.den : Int) :=
    mul_le_mul_of_nonneg_right hxy hc
  have h2 : b.num * (c.den : Int) * (a.den : Int) ≤ c.num * (b.den : Int) * (a.den : Int) :=
    mul_le_mul_of_nonneg_right hyz ha
  have h3 : a.num * (c.den : Int) * (b.den : Int) ≤ c.num * (a.den : Int) * (b.den : Int) := by
    nlinarith
  exact le_of_mul_le_mul_right h3 hb

theorem keyLeB_total : ∀ x y : PyFloatVal, keyLeB x y = true ∨ keyLeB y x = true := by
  intro x y
  cases x <;> cases y <;> simp [keyLeB, keyRank]
  exact Int.le_total _ _

theorem keyLeB_trans : ∀ x y z : PyFloatVal,
    keyLeB x y = true → keyLeB y z = true → keyLeB x z = true := by
  intro x y z hxy hyz
  cases x <;> cases y <;> cases z <;> simp_all [keyLeB, keyRank]
  exact pynum_le_trans _ _ _ hxy hyz

instance (pfloat : String → Option PyFloatVal) : IsTotal String (unitLe pfloat) :=
  ⟨fun a b => keyLeB_total (sort_key pfloat a) (sort_key pfloat b)⟩

instance (pfloat : String → Option PyFloatVal) : IsTrans String (unitLe pfloat) :=
  ⟨fun a b c => keyLeB_trans (sort_key pfloat a) (sort_key pfloat b) (sort_key pfloat c)⟩

/-- From the inf key, le leads only to the inf key (or to a NaN key, here
excluded): nothing finite and no negative infinity follows it. -/
theorem key_pinf_of_le {a b : PyFloatVal} (h : keyLeB a b = true)
    (ha : isPinfKey a = true) (hb : isNanKey b = false) : isPinfKey b = true := by
  cases a <;> cases b <;> simp_all [keyLeB, keyRank, isPinfKey, isNanKey]

/-- Inserting an element that fails a predicate leaves the filtered list
unchanged. -/
theorem filter_orderedInsert_neg {α : Type} (r : α → α → Prop) [DecidableRel r]
    (p : α → Bool) (x : α) (hx : p x = false) :
    ∀ l : List α, (List.orderedInsert r x l).filter p = l.filter p := by
  intro l
  induction l with
  | nil => simp [hx]
  | cons y ys ih =>
    by_cases h : r x y
    · simp [List.orderedInsert, if_pos h, List.filter_cons, hx]
    · simp only [List.orderedInsert, if_neg h, List.filter_cons]
      rw [ih]

/-- Inserting an element that satisfies a predicate, when everything it can
pass over fails the predicate, prepends it to the filtered list. -/
theorem filter_orderedInsert_pos {α : Type} (r : α → α → Prop) [DecidableRel r]
    (p : α → Bool) (x : α) (hx : p x = true)
    (hskip : ∀ y, ¬ r x y → p y = false) :
    ∀ l : List α, (List.orderedInsert r x l).filter p = x :: l.filter p := by
  intro l
  induction l with
  | nil => simp [hx]
  | cons y ys ih =>
    by_cases h : r x y
    · simp [List.orderedInsert, if_pos h, List.filter_cons, hx]
    · have hy : p y = false := hskip y h
      simp only [List.orderedInsert, if_neg h, List.filter_cons, hy]
      rw [ih]
      simp [hy]

/-- Stability of the sort for the block of labels holding the inf key
(parse failures and labels parsing to positive infinity): they keep their
discovery order. -/
theorem filter_pinf_sorted_units (pfloat : String → Option PyFloatVal) (units : List String) :
    (sorted_units pfloat units).filter (fun u => isPinfKey (sort_key pfloat u))
      = units.filter (fun u => isPinfKey (sort_key pfloat u)) := by
  unfold sorted_units
  induction units with
  | nil => rfl
  | cons u us ih =>
    rw [List.insertionSort]
    cases hk : sort_key pfloat u with
    | pinf =>
      have hx : (fun w => isPinfKey (sort_key pfloat w)) u = true := by simp [hk, isPinfKey]
      have hskip : ∀ y, ¬ unitLe pfloat u y →
          (fun w => isPinfKey (sort_key pfloat w)) y = false := by
        intro y hy
        cases hky : sort_key pfloat y with
        | fin v => simp [hky, isPinfKey]
        | ninf => simp [hky, isPinfKey]
        | pinf =>
          exfalso
          apply hy
          unfold unitLe
          rw [hk, hky]
          rfl
        | nan =>
          exfalso
          apply hy
          unfold unitLe
          rw [hk, hky]
          rfl
      rw [filter_orderedInsert_pos (unitLe pfloat) _ u hx hskip, ih, List.filter_cons]
      simp [hk, isPinfKey]
    | fin v =>
      have hx : (fun w => isPinfKey (sort_key pfloat w)) u = false := by simp [hk, isPinfKey]
      rw [filter_orderedInsert_neg (unitLe pfloat) _ u hx, ih, List.filter_cons]
      simp [hk, isPinfKey]
    | ninf =>
      have hx : (fun w => isPinfKey (sort_key pfloat w)) u = false := by simp [hk, isPinfKey]
      rw [filter_orderedInsert_neg (unitLe pfloat) _ u hx, ih, List.filter_cons]
      simp [hk, isPinfKey]
    | nan =>
      have hx : (fun w => isPinfKey (sort_key pfloat w)) u = false := by simp [hk, isPinfKey]
      rw [filter_orderedInsert_neg (unitLe pfloat) _ u hx, ih, List.filter_cons]
      simp [hk, isPinfKey]

/-- A row shape on which lines 92-160 cannot raise: a dict whose truthy id
is hashable, whose cost (when present) is a float, a bool, or an int small
enough to convert to float, and whose cost unit (when present) is hashable
and safe under sort_key's float() call (again: not a too-large int). -/
def wellShapedRow (r : Json) : Bool :=
  match r with
  | Json.obj fields =>
    (match lookupField fields "id" with
     | some v => !jsonTruthy v || jsonHashable v
     | none => true)
    && (match lookupField fields "cost" with
     | some v => jsonNumeric v
     | none => true)
    && (match lookupField fields "cost_unit" with
     | some v => jsonHashable v && unitKeySafe v
     | none => true)
  | _ => false

/-- A rows value line 84 can extend with safely: a JSON array of
well-shaped rows. -/
def wellShapedRows (v : Json) : Bool :=
  match v with
  | Json.arr rs => rs.all wellShapedRow
  | _ => false

theorem wellShapedRow_obj {r : Json} (h : wellShapedRow r = true) : jsonIsObj r = true := by
  cases r <;> simp [wellShapedRow, jsonIsObj] at h ⊢

theorem wellShapedRow_id {r v : Json} (h : wellShapedRow r = true)
    (hv : rowField r "id" = some v) (ht : jsonTruthy v = true) : jsonHashable v = true := by
  cases r with
  | obj fields =>
    simp only [wellShapedRow, Bool.and_eq_true] at h
    obtain ⟨⟨hA, _⟩, _⟩ := h
    simp only [rowField] at hv
    rw [hv] at hA
    rcases Bool.or_eq_true_iff.mp hA with h1 | h1
    · rw [ht] at h1
      simp at h1
    · exact h1
  | null => simp [wellShapedRow] at h
  | bool b => simp [wellShapedRow] at h
  | intNum n => simp [wellShapedRow] at h
  | floatNum q => simp [wellShapedRow] at h
  | str s => simp [wellShapedRow] at h
  | arr xs => simp [wellShapedRow] at h

theorem wellShapedRow_cost {r v : Json} (h : wellShapedRow r = true)
    (hv : rowField r "cost" = some v) : jsonNumeric v = true := by
  cases r with
  | obj fields =>
    simp only [wellShapedRow, Bool.and_eq_true] at h
    obtain ⟨⟨_, hB⟩, _⟩ := h
    simp only [rowField] at hv
    rw [hv] at hB
    exact hB
  | null => simp [wellShapedRow] at h
  | bool b => simp [wellShapedRow] at h
  | intNum n => simp [wellShapedRow] at h
  | floatNum q => simp [wellShapedRow] at h
  | str s => simp [wellShapedRow] at h
  | arr xs => simp [wellShapedRow] at h

theorem wellShapedRow_unit {r v : Json} (h : wellShapedRow r = true)
    (hv : rowField r "cost_unit" = some v) :
    jsonHashable v = true ∧ unitKeySafe v = true := by
  cases r with
  | obj fields =>
    simp only [wellShapedRow, Bool.and_eq_true] at h
    obtain ⟨_, hC⟩ := h
    simp only [rowField] at hv
    rw [hv] at hC
    exact Bool.and_eq_true_iff.mp hC
  | null => simp [wellShapedRow] at h
  | bool b => simp [wellShapedRow] at h
  | intNum n => simp [wellShapedRow] at h
  | floatNum q => simp [wellShapedRow] at h
  | str s => simp [wellShapedRow] at h
  | arr xs => simp [wellShapedRow] at h

theorem aggregation_ok_of_rows {rows : List Json}
    (h : ∀ r ∈ rows, wellShapedRow r = true) : aggregation_ok rows = true := by
  unfold aggregation_ok
  simp only [Bool.and_eq_true, List.all_eq_true]
  refine ⟨⟨⟨⟨fun r hr => wellShapedRow_obj (h r hr), ?_⟩, ?_⟩, ?_⟩, ?_⟩
  · intro v hv
    unfold allIdsJson at hv
    obtain ⟨r, hr, hf⟩ := List.mem_filterMap.mp hv
    cases hi : rowField r "id" with
    | none => rw [hi] at hf; simp at hf
    | some w =>
      rw [hi] at hf
      cases ht : jsonTruthy w with
      | false => simp [ht] at hf
      | true =>
        simp only [ht, if_true] at hf
        obtain rfl : w = v := Option.some_injective _ hf
        exact wellShapedRow_id (h r hr) hi ht
  · intro r hr
    cases hc : rowField r "cost" with
    | none => simp
    | some v => simpa using wellShapedRow_cost (h r hr) hc
  · intro r hr
    cases hc : rowField r "cost_unit" with
    | none => simp
    | some v => simpa using (wellShapedRow_unit (h r hr) hc).1
  · intro r hr
    cases hc : rowField r "cost_unit" with
    | none => simp
    | some v => simpa using (wellShapedRow_unit (h r hr) hc).2

theorem rowsOf_of_wellShaped {v : Json} (h : wellShapedRows v = true) :
    rowsOf v = some (arr_elems v) := by
  cases v <;> simp [wellShapedRows] at h ⊢
  rfl

theorem mem_arr_elems_wellShaped {v r : Json} (h : wellShapedRows v = true)
    (hr : r ∈ arr_elems v) : wellShapedRow r = true := by
  cases v with
  | arr xs =>
    simp only [wellShapedRows, List.all_eq_true] at h
    exact h r hr
  | null => simp [arr_elems] at hr
  | bool b => simp [arr_elems] at hr
  | intNum n => simp [arr_elems] at hr
  | floatNum q => simp [arr_elems] at hr
  | str s => simp [arr_elems] at hr
  | obj fields => simp [arr_elems] at hr

theorem extract_all_of_wellShaped (parse : String → Option Json) :
    ∀ files : List DirEntry,
      (∀ e ∈ files, wellShapedRows (process_file parse e.content) = true) →
      extract_all parse files = some (extracted_rows parse files) := by
  intro files
  induction files with
  | nil => intro _; rfl
  | cons e es ih =>
    intro h
    have he := h e (List.mem_cons_self e es)
    have hes := ih fun x hx => h x (List.mem_cons_of_mem e hx)
    rw [extract_all, rowsOf_of_wellShaped he, hes]
    rfl

theorem mem_extracted_rows_wellShaped (parse : String → Option Json)
    {files : List DirEntry} {r : Json}
    (h : ∀ e ∈ files, wellShapedRows (process_file parse e.content) = true)
    (hr : r ∈ extracted_rows parse files) : wellShapedRow r = true := by
  unfold extracted_rows at hr
  obtain ⟨l, hl, hrl⟩ := List.mem_flatten.mp hr
  obtain ⟨e, he, rfl⟩ := List.mem_map.mp hl
  exact mem_arr_elems_wellShaped (h e he) hrl

/-- Under the well-shapedness hypothesis main never raises: it exits through
one of the four fatal sys.exit calls or completes normally. -/
theorem runMain_eq_of_wellShaped (parse : String → Option Json)
    (argv : List String) (fsys : FileSys)
    (h : ∀ e ∈ List.insertionSort nameLe (matching_files (argv.getD 2 "") fsys.entries),
         wellShapedRows (process_file parse e.content) = true) :
    runMain parse argv fsys =
      (if argv.length < 3 then Outcome.fatal Fatal.missingArgs
       else if fsys.isDir = false then Outcome.fatal Fatal.notADirectory
       else if (matching_files (argv.getD 2 "") fsys.entries).isEmpty then
         Outcome.fatal Fatal.noFilesFound
       else if (extracted_rows parse
           (List.insertionSort nameLe (matching_files (argv.getD 2 "") fsys.entries))).isEmpty then
         Outcome.fatal Fatal.noCostItems
       else Outcome.ok (extracted_rows parse
           (List.insertionSort nameLe (matching_files (argv.getD 2 "") fsys.entries)))) := by
  unfold runMain
  by_cases h1 : argv.length < 3
  · rw [if_pos h1, if_pos h1]
  · rw [if_neg h1, if_neg h1]
    by_cases h2 : fsys.isDir = false
    · rw [if_pos h2, if_pos h2]
    · rw [if_neg h2, if_neg h2]
      by_cases h3 : (matching_files (argv.getD 2 "") fsys.entries).isEmpty = true
      · rw [if_pos h3, if_pos h3]
      · rw [if_neg h3, if_neg h3]
        rw [extract_all_of_wellShaped parse _ h]
        show (if (extracted_rows parse
              (List.insertionSort nameLe (matching_files (argv.getD 2 "") fsys.entries))).isEmpty
            then Outcome.fatal Fatal.noCostItems
            else if aggregation_ok (extracted_rows parse
              (List.insertionSort nameLe (matching_files (argv.getD 2 "") fsys.entries)))
            then Outcome.ok (extracted_rows parse
              (List.insertionSort nameLe (matching_files (argv.getD 2 "") fsys.entries)))
            else Outcome.crash)
          = _
        by_cases h4 : (extracted_rows parse
            (List.insertionSort nameLe (matching_files (argv.getD 2 "") fsys.entries))).isEmpty = true
        · rw [if_pos h4, if_pos h4]
        · rw [if_neg h4, if_neg h4]
          have hok : aggregation_ok (extracted_rows parse
              (List.insertionSort nameLe (matching_files (argv.getD 2 "") fsys.entries))) = true :=
            aggregation_ok_of_rows fun r hr => mem_extracted_rows_wellShaped parse h hr
          rw [if_pos hok]

/-- Ids collected by line 93 are exactly the present-and-truthy ones. -/
theorem mem_all_ids {rows : List CostRecord} {s : String} :
    s ∈ all_ids rows ↔ ∃ r, r ∈ rows ∧ r.id = some s ∧ s ≠ "" := by
  unfold all_ids
  rw [List.mem_filterMap]
  constructor
  · rintro ⟨r, hr, hf⟩
    cases hid : r.id with
    | none => rw [hid] at hf; simp [idTruthy] at hf
    | some t =>
      rw [hid] at hf
      simp only [idTruthy] at hf
      split at hf
      · exact absurd hf (by simp)
      · rename_i hne
        obtain rfl := Option.some_injective _ hf
        exact ⟨r, hr, hid, hne⟩
  · rintro ⟨r, hr, hid, hne⟩
    refine ⟨r, hr, ?_⟩
    simp [idTruthy, hid, hne]

/-- Example rows of the spec: ids a, a, b. -/
def c5_rows : List CostRecord :=
  [⟨some "a", none, none⟩, ⟨some "a", none, none⟩, ⟨some "b", none, none⟩]

/-- C1: the grand total equals the sum of the cost field (0 when absent)
over every row extracted from every matched file, each row counted exactly
once, and it is invariant under permuting the file processing order. -/
theorem claim_c1_grand_total (fileRows fileRows' : List (List CostRecord))
    (h : fileRows.Perm fileRows') :
    grand_total_cost fileRows.flatten = (fileRows.flatten.map cost_of).sum
    ∧ grand_total_cost fileRows.flatten = grand_total_cost fileRows'.flatten := by
  constructor
  · exact grand_total_cost_eq_sum _
  · rw [grand_total_cost_eq_sum, grand_total_cost_eq_sum,
      List.map_flatten, List.map_flatten, List.sum_flatten, List.sum_flatten]
    exact List.Perm.sum_eq ((h.map (List.map cost_of)).map List.sum)

theorem claim_c1_grand_total_witness :
    ([[⟨some "a", some 2, some "u"⟩], [⟨some "b", some 3, none⟩]] : List (List CostRecord)).Perm
      [[⟨some "b", some 3, none⟩], [⟨some "a", some 2, some "u"⟩]]
    ∧ (grand_total_cost ([[⟨some "a", some 2, some "u"⟩],
          [⟨some "b", some 3, none⟩]] : List (List CostRecord)).flatten
        = (([[⟨some "a", some 2, some "u"⟩],
          [⟨some "b", some 3, none⟩]] : List (List CostRecord)).flatten.map cost_of).sum
       ∧ grand_total_cost ([[⟨some "a", some 2, some "u"⟩],
          [⟨some "b", some 3, none⟩]] : List (List CostRecord)).flatten
        = grand_total_cost ([[⟨some "b", some 3, none⟩],
          [⟨some "a", some 2, some "u"⟩]] : List (List CostRecord)).flatten) :=
  ⟨List.Perm.swap _ _ _, claim_c1_grand_total _ _ (List.Perm.swap _ _ _)⟩

/-- C2: the per-unit cost totals sum to the grand total, the per-unit item
counts sum to the row count, and the buckets are exactly the distinct
values of the unit field (with its UNKNOWN default) in first-seen order,
each appearing once: every row lands in exactly one bucket. -/
theorem claim_c2_breakdown_consistency (rows : List CostRecord) :
    ((cost_breakdown rows).map (fun e => e.2.1)).sum = grand_total_cost rows
    ∧ ((cost_breakdown rows).map (fun e => e.2.2)).sum = rows.length
    ∧ (cost_breakdown rows).map (fun e => e.1) = firstSeen (rows.map unit_of)
    ∧ ((cost_breakdown rows).map (fun e => e.1)).Nodup := by
  have hkeys : (cost_breakdown rows).map (fun e => e.1) = firstSeen (rows.map unit_of) := by
    unfold cost_breakdown
    rw [breakdown_fold_keys]
    rfl
  refine ⟨?_, ?_, hkeys, ?_⟩
  · unfold cost_breakdown
    rw [breakdown_fold_costs, grand_total_cost_eq_sum]
    simp
  · unfold cost_breakdown
    rw [breakdown_fold_counts]
    simp
  · rw [hkeys]
    exact firstSeen_nodup _

/-- C5: line 93 collects exactly the present and truthy ids, the length
comparison of line 95 fires exactly when a duplicate exists, and on ids
a, a, b the report counts 2 unique ids and one duplicate group, a twice. -/
theorem claim_c5_uniqueness (rows : List CostRecord) :
    (∀ s, s ∈ all_ids rows ↔ ∃ r, r ∈ rows ∧ r.id = some s ∧ s ≠ "")
    ∧ (has_duplicate_ids rows = true ↔ ¬ (all_ids rows).Nodup)
    ∧ (firstSeen (all_ids c5_rows)).length = 2
    ∧ duplicates c5_rows = [("a", 2)] := by
  refine ⟨fun s => mem_all_ids, has_duplicate_ids_iff rows, by decide, by decide⟩

/-- Rows with ids b, b, a, a: two duplicate groups in first-seen order. -/
def c8_rows : List CostRecord :=
  [⟨some "b", none, none⟩, ⟨some "b", none, none⟩,
   ⟨some "a", none, none⟩, ⟨some "a", none, none⟩]

/-- Rows with seven duplicate groups a, b, c, d, e, f, g (each id twice). -/
def c8_big : List CostRecord :=
  [⟨some "a", none, none⟩, ⟨some "a", none, none⟩,
   ⟨some "b", none, none⟩, ⟨some "b", none, none⟩,
   ⟨some "c", none, none⟩, ⟨some "c", none, none⟩,
   ⟨some "d", none, none⟩, ⟨some "d", none, none⟩,
   ⟨some "e", none, none⟩, ⟨some "e", none, none⟩,
   ⟨some "f", none, none⟩, ⟨some "f", none, none⟩,
   ⟨some "g", none, none⟩, ⟨some "g", none, none⟩]

/-- C8: with duplicates, the report lists each duplicate id with its count
in first-seen group order, at most the first five, then one line with the
number of remaining groups when more than five exist; with none, a single
success line carrying the item count. -/
theorem claim_c8_duplicate_report (rows : List CostRecord) :
    (has_duplicate_ids rows = true →
      id_check_report rows
        = ((duplicates rows).take 5).map (fun p => DupLine.detail p.1 p.2)
          ++ (if 5 < (duplicates rows).length then
                [DupLine.more ((duplicates rows).length - 5)]
              else []))
    ∧ (has_duplicate_ids rows = false → id_check_report rows = [DupLine.success rows.length])
    ∧ id_check_report c8_rows = [DupLine.detail "b" 2, DupLine.detail "a" 2]
    ∧ id_check_report c8_big
        = [DupLine.detail "a" 2, DupLine.detail "b" 2, DupLine.detail "c" 2,
           DupLine.detail "d" 2, DupLine.detail "e" 2, DupLine.more 2] := by
  refine ⟨?_, ?_, by decide, by decide⟩
  · intro hd
    unfold id_check_report
    rw [if_pos hd, dup_detail_lines_eq (duplicates rows).length (duplicates rows) 0 (by omega)]
  · intro hd
    unfold id_check_report
    rw [hd]
    simp

theorem claim_c8_duplicate_report_witness :
    has_duplicate_ids c8_big = true
    ∧ id_check_report c8_big
        = ((duplicates c8_big).take 5).map (fun p => DupLine.detail p.1 p.2)
          ++ (if 5 < (duplicates c8_big).length then
                [DupLine.more ((duplicates c8_big).length - 5)]
              else []) :=
  ⟨by decide, (claim_c8_duplicate_report c8_big).1 (by decide)⟩

/-- C10: defaults fill in only for absent keys, never for present falsy
values: a present empty-string unit keeps its own bucket, a present zero
cost is summed as zero, while a present empty-string id is dropped by the
truthiness filter exactly like an absent one. -/
theorem claim_c10_defaults (r : CostRecord) (rows : List CostRecord) :
    (∀ u, r.cost_unit = some u → unit_of r = u)
    ∧ (r.cost_unit = none → unit_of r = "UNKNOWN")
    ∧ (∀ c, r.cost = some c → cost_of r = c)
    ∧ (r.cost = none → cost_of r = 0)
    ∧ (r.id = some "" → all_ids (r :: rows) = all_ids rows)
    ∧ cost_breakdown [⟨some "", some 0, some ""⟩] = [("", 0, 1)]
    ∧ all_ids [⟨some "", some 0, some ""⟩] = [] := by
  refine ⟨?_, ?_, ?_, ?_, ?_, rfl, rfl⟩
  · intro u hu
    simp [unit_of, hu]
  · intro hu
    simp [unit_of, hu]
  · intro c hc
    simp [cost_of, hc]
  · intro hc
    simp [cost_of, hc]
  · intro hid
    unfold all_ids
    rw [List.filterMap_cons]
    simp [idTruthy, hid]

theorem claim_c10_defaults_witness :
    (CostRecord.mk (some "") (some 0) (some "")).cost_unit = some ""
    ∧ unit_of ⟨some "", some 0, some ""⟩ = ""
    ∧ cost_of ⟨some "", some 0, some ""⟩ = 0
    ∧ all_ids (⟨some "", some 0, some ""⟩ :: ([] : List CostRecord)) = all_ids [] :=
  ⟨rfl, (claim_c10_defaults ⟨some "", some 0, some ""⟩ []).1 "" rfl,
    (claim_c10_defaults ⟨some "", some 0, some ""⟩ []).2.2.1 0 rfl,
    (claim_c10_defaults ⟨some "", some 0, some ""⟩ []).2.2.2.2.1 rfl⟩

/-- C3: extraction dispatch.  With a parseable outer document that is an
object: a string-valued Value field that parses to an object yields that
payload's data field (empty when absent); a string-valued Value whose
parse fails yields the empty list; without a string-valued Value the outer
object's own data field (empty when absent) is used; an unreadable file
yields the empty list.  In every case the function returns instead of
raising. -/
theorem claim_c3_extraction (parse : String → Option Json) (text : String)
    (fields : List (String × Json)) (houter : parse text = some (Json.obj fields)) :
    (∀ s inner, lookupField fields "Value" = some (Json.str s) →
        parse s = some (Json.obj inner) →
        process_file parse (some text) = (lookupField inner "data").getD (Json.arr []))
    ∧ (∀ s, lookupField fields "Value" = some (Json.str s) → parse s = none →
        process_file parse (some text) = Json.arr [])
    ∧ ((∀ s, lookupField fields "Value" ≠ some (Json.str s)) →
        process_file parse (some text) = (lookupField fields "data").getD (Json.arr []))
    ∧ process_file parse none = Json.arr [] := by
  refine ⟨?_, ?_, ?_, rfl⟩
  · intro s inner hv hi
    simp [process_file, houter, hv, hi]
  · intro s hv hi
    simp [process_file, houter, hv, hi]
  · intro hno
    cases hlv : lookupField fields "Value" with
    | none => simp [process_file, houter, hlv]
    | some v =>
      cases v with
      | str s => exact absurd hlv (hno s)
      | null => simp [process_file, houter, hlv]
      | bool b => simp [process_file, houter, hlv]
      | intNum n => simp [process_file, houter, hlv]
      | floatNum q => simp [process_file, houter, hlv]
      | arr xs => simp [process_file, houter, hlv]
      | obj fs => simp [process_file, houter, hlv]

/-- A concrete two-layer envelope for exercising the extraction paths. -/
def parse_w3 : String → Option Json := fun t =>
  if t = "outer" then some (Json.obj [("Value", Json.str "inner")])
  else if t = "inner" then some (Json.obj [("data", Json.arr [Json.intNum 1])])
  else none

theorem claim_c3_extraction_witness :
    parse_w3 "outer" = some (Json.obj [("Value", Json.str "inner")])
    ∧ process_file parse_w3 (some "outer")
        = (lookupField [("data", Json.arr [Json.intNum 1])] "data").getD (Json.arr []) :=
  ⟨rfl, (claim_c3_extraction parse_w3 "outer" [("Value", Json.str "inner")] rfl).1
      "inner" [("data", Json.arr [Json.intNum 1])] rfl rfl⟩

/-- C4 (amended): when every matched file's extracted rows value is a JSON
array of well-shaped rows (dicts whose truthy id is hashable, whose cost,
when present, is a float, a bool or a float-convertible int, and whose
cost unit, when present, is hashable and float-convertible when an int -
larger ints raise uncaught OverflowError at lines 116, 142 or through
sort_key under sorted at line 153), the process exits non-zero exactly
through the four fatal conditions, checked in order (missing arguments,
path not a directory, no matching files, zero extracted rows), and
otherwise completes normally; the enumerated per-file failures (unreadable
file, malformed outer JSON, malformed inner JSON) are caught inside
process_file and become an empty row list. -/
theorem claim_c4_exit_behavior (parse : String → Option Json)
    (argv : List String) (fsys : FileSys)
    (h : ∀ e ∈ List.insertionSort nameLe (matching_files (argv.getD 2 "") fsys.entries),
         wellShapedRows (process_file parse e.content) = true) :
    (process_file parse none = Json.arr [])
    ∧ (∀ t, parse t = none → process_file parse (some t) = Json.arr [])
    ∧ (∀ t fields s, parse t = some (Json.obj fields) →
        lookupField fields "Value" = some (Json.str s) → parse s = none →
        process_file parse (some t) = Json.arr [])
    ∧ runMain parse argv fsys =
      (if argv.length < 3 then Outcome.fatal Fatal.missingArgs
       else if fsys.isDir = false then Outcome.fatal Fatal.notADirectory
       else if (matching_files (argv.getD 2 "") fsys.entries).isEmpty then
         Outcome.fatal Fatal.noFilesFound
       else if (extracted_rows parse
           (List.insertionSort nameLe (matching_files (argv.getD 2 "") fsys.entries))).isEmpty then
         Outcome.fatal Fatal.noCostItems
       else Outcome.ok (extracted_rows parse
           (List.insertionSort nameLe (matching_files (argv.getD 2 "") fsys.entries)))) := by
  refine ⟨rfl, ?_, ?_, runMain_eq_of_wellShaped parse argv fsys h⟩
  · intro t ht
    simp [process_file, ht]
  · intro t fields s ht hv hs
    simp [process_file, ht, hv, hs]

/-- A parse oracle and directory with one well-shaped cost file. -/
def parse_w4 : String → Option Json := fun t =>
  if t = "GOOD" then
    some (Json.obj [("data", Json.arr
      [Json.obj [("id", Json.str "a"), ("cost", Json.intNum 2), ("cost_unit", Json.str "u")]])])
  else none

def fsys_w4 : FileSys := ⟨true, [⟨"topic-message", true, some "GOOD"⟩]⟩

theorem claim_c4_exit_behavior_witness :
    (∀ e ∈ List.insertionSort nameLe
        (matching_files ((["prog", "dir", "topic"] : List String).getD 2 "") fsys_w4.entries),
      wellShapedRows (process_file parse_w4 e.content) = true)
    ∧ runMain parse_w4 ["prog", "dir", "topic"] fsys_w4
        = Outcome.ok [Json.obj [("id", Json.str "a"), ("cost", Json.intNum 2),
            ("cost_unit", Json.str "u")]] :=
  ⟨by decide, by
    have h4 := (claim_c4_exit_behavior parse_w4 ["prog", "dir", "topic"] fsys_w4
      (by decide)).2.2.2
    exact h4.trans (by rfl)⟩

/-- A readable, parseable file whose data field is the number 5. -/
def parse_cx : String → Option Json := fun t =>
  if t = "BAD" then some (Json.obj [("data", Json.intNum 5)]) else none

def fsys_cx : FileSys := ⟨true, [⟨"topic-message", true, some "BAD"⟩]⟩

/-- C4 counterexample: with valid arguments, an existing directory and one
matching readable file holding the parseable document with data equal to
the number 5, process_file returns 5 and line 84 raises an uncaught
TypeError (5 is not iterable).  The run terminates with a non-zero status
that is none of the four fatal exits, refuting the exactness in C4 as
stated. -/
theorem claim_c4_counterexample :
    runMain parse_cx ["prog", "dir", "topic"] fsys_cx = Outcome.crash
    ∧ ¬ (["prog", "dir", "topic"] : List String).length < 3
    ∧ fsys_cx.isDir = true
    ∧ (matching_files ((["prog", "dir", "topic"] : List String).getD 2 "")
        fsys_cx.entries).isEmpty = false := by
  refine ⟨rfl, by decide, rfl, rfl⟩

/-- C6 counterexample: the label inf parses as a number (float(inf)
succeeds) yet receives the same inf sort key that parse failures receive,
so with units abc, inf the program prints the parsing label inf after the
non-parsing label abc (tied keys, stable sort) - refuting the claim that
every label parsing as a number is printed before every label that does
not parse. -/
theorem claim_c6_counterexample :
    sorted_units pyFloat? ["abc", "inf"] = ["abc", "inf"]
    ∧ (pyFloat? "inf").isSome = true
    ∧ (pyFloat? "abc").isSome = false := by
  refine ⟨by decide, by decide, by decide⟩

/-- C6 (amended): under any float(string) oracle, and provided no unit
label parses to NaN (NaN keys defeat every comparison and leave the order
to Timsort internals): the breakdown section prints the unit labels sorted
by their float sort key - negative-infinity labels first, finite values in
ascending order, and the labels that parse to positive infinity together
with the labels that do not parse as numbers sharing the greatest key at
the end, that final block in its discovery order, with nothing of lower
key after it; on labels 10, 2, abc the printed order is 2, 10, abc. -/
theorem claim_c6_unit_sort (pfloat : String → Option PyFloatVal) (units : List String)
    (hnan : ∀ u ∈ units, isNanKey (sort_key pfloat u) = false) :
    List.Sorted (unitLe pfloat) (sorted_units pfloat units)
    ∧ (sorted_units pfloat units).Perm units
    ∧ (sorted_units pfloat units).filter (fun u => isPinfKey (sort_key pfloat u))
        = units.filter (fun u => isPinfKey (sort_key pfloat u))
    ∧ (∀ l1 v l2, sorted_units pfloat units = l1 ++ v :: l2 →
        isPinfKey (sort_key pfloat v) = true →
        ∀ u ∈ l2, isPinfKey (sort_key pfloat u) = true)
    ∧ sorted_units pyFloat? ["10", "2", "abc"] = ["2", "10", "abc"] := by
  refine ⟨List.sorted_insertionSort (unitLe pfloat) units,
    List.perm_insertionSort (unitLe pfloat) units,
    filter_pinf_sorted_units pfloat units, ?_, by decide⟩
  intro l1 v l2 heq hv u hu
  have husort : u ∈ sorted_units pfloat units := by
    rw [heq]
    exact List.mem_append_right _ (List.mem_cons_of_mem v hu)
  have hmem : u ∈ units :=
    (List.perm_insertionSort (unitLe pfloat) units).mem_iff.mp husort
  have hsorted : List.Sorted (unitLe pfloat) (l1 ++ v :: l2) :=
    heq ▸ List.sorted_insertionSort (unitLe pfloat) units
  have h2 : List.Sorted (unitLe pfloat) (v :: l2) :=
    List.Pairwise.sublist (List.sublist_append_right l1 (v :: l2)) hsorted
  exact key_pinf_of_le (List.rel_of_sorted_cons h2 u hu) hv (hnan u hmem)

theorem claim_c6_unit_sort_witness :
    (∀ u ∈ (["2", "abc", "xyz"] : List String), isNanKey (sort_key pyFloat? u) = false)
    ∧ sorted_units pyFloat? ["2", "abc", "xyz"] = ["2"] ++ "abc" :: ["xyz"]
    ∧ isPinfKey (sort_key pyFloat? "abc") = true
    ∧ isPinfKey (sort_key pyFloat? "xyz") = true :=
  ⟨by decide, by decide, by decide,
    (claim_c6_unit_sort pyFloat? ["2", "abc", "xyz"] (by decide)).2.2.2.1 ["2"] "abc" ["xyz"]
      (by decide) (by decide) "xyz" (by decide)⟩

/-- The directory of the discovery example. -/
def c7_dir : List DirEntry :=
  [⟨"topic-message", true, none⟩, ⟨"topic-message(1)", true, none⟩, ⟨"other", true, none⟩]

/-- C7: discovery keeps exactly the regular files whose name contains the
pattern case-insensitively, sorted lexicographically by name; on the
example directory with pattern topic-message it returns the two matching
names in order, and matching is case-insensitive. -/
theorem claim_c7_discovery (pattern : String) (entries : List DirEntry) :
    (∀ e, e ∈ sorted_files pattern entries
        ↔ e ∈ entries ∧ (e.isFile && nameMatches pattern e.name) = true)
    ∧ List.Sorted nameLe (sorted_files pattern entries)
    ∧ (sorted_files "topic-message" c7_dir).map DirEntry.name
        = ["topic-message", "topic-message(1)"]
    ∧ nameMatches "Topic-Message" "TOPIC-MESSAGE(1)" = true := by
  refine ⟨?_, List.sorted_insertionSort nameLe _, by decide, by decide⟩
  intro e
  unfold sorted_files
  rw [(List.perm_insertionSort nameLe _).mem_iff]
  unfold matching_files
  rw [List.mem_filter]

theorem containsSub_nil (l : List Char) : containsSub [] l = true := by
  cases l <;> simp [containsSub, isPrefixB]

theorem nameMatches_empty (n : String) : nameMatches "" n = true :=
  containsSub_nil _

/-- With the empty pattern every regular file matches. -/
theorem matching_files_empty_pattern (entries : List DirEntry) :
    matching_files "" entries = entries.filter (fun e => e.isFile) := by
  unfold matching_files
  congr 1
  funext e
  rw [nameMatches_empty, Bool.and_true]

/-- C9: with the empty pattern, discovery selects every regular file, so
the no-files fatal exit happens precisely when the directory holds no
regular file at all. -/
theorem claim_c9_empty_pattern (parse : String → Option Json) (fsys : FileSys)
    (a0 a1 : String) (hdir : fsys.isDir = true) :
    matching_files "" fsys.entries = fsys.entries.filter (fun e => e.isFile)
    ∧ (runMain parse [a0, a1, ""] fsys = Outcome.fatal Fatal.noFilesFound
        ↔ fsys.entries.filter (fun e => e.isFile) = []) := by
  refine ⟨matching_files_empty_pattern fsys.entries, ?_⟩
  have hget : ([a0, a1, ""] : List String).getD 2 "" = "" := rfl
  unfold runMain
  rw [if_neg (by simp), if_neg (by simp [hdir]), hget, matching_files_empty_pattern]
  by_cases hempty : fsys.entries.filter (fun e => e.isFile) = []
  · simp [hempty]
  · have hne : ¬ ((fsys.entries.filter (fun e => e.isFile)).isEmpty = true) := by
      simpa [List.isEmpty_iff] using hempty
    rw [if_neg hne]
    constructor
    · intro hM
      exfalso
      cases hex : extract_all parse
          (List.insertionSort nameLe (fsys.entries.filter (fun e => e.isFile))) with
      | none =>
        rw [hex] at hM
        simp at hM
      | some rows =>
        rw [hex] at hM
        have hM2 : (if rows.isEmpty = true then Outcome.fatal Fatal.noCostItems
            else if aggregation_ok rows = true then Outcome.ok rows else Outcome.crash)
            = Outcome.fatal Fatal.noFilesFound := hM
        by_cases hr : rows.isEmpty = true
        · rw [if_pos hr] at hM2
          simp at hM2
        · rw [if_neg hr] at hM2
          by_cases hok : aggregation_ok rows = true
          · rw [if_pos hok] at hM2
            simp at hM2
          · rw [if_neg hok] at hM2
            simp at hM2
    · intro h2
      exact absurd h2 hempty

theorem claim_c9_empty_pattern_witness :
    (FileSys.mk true [⟨"subdir", false, none⟩]).isDir = true
    ∧ matching_files "" (FileSys.mk true [⟨"subdir", false, none⟩]).entries
        = (FileSys.mk true [⟨"subdir", false, none⟩]).entries.filter (fun e => e.isFile)
    ∧ (runMain (fun _ => none) ["prog", "dir", ""] (FileSys.mk true [⟨"subdir", false, none⟩])
         = Outcome.fatal Fatal.noFilesFound
       ↔ (FileSys.mk true [⟨"subdir", false, none⟩]).entries.filter (fun e => e.isFile) = []) :=
  ⟨rfl,
    (claim_c9_empty_pattern (fun _ => none) (FileSys.mk true [⟨"subdir", false, none⟩])
      "prog" "dir" rfl).1,
    (claim_c9_empty_pattern (fun _ => none) (FileSys.mk true [⟨"subdir", false, none⟩])
      "prog" "dir" rfl).2⟩
